import Mathlib

/-!
Shallow embedding of the enscons package-metadata and archive-assembly core
(`enscons/util.py` and `enscons/__init__.py`), together with theorems about
the identifier normalizers, the requirement expander, the metadata mapping
composition, the wheel manifest writer and the compatibility-tag resolver.

Python strings are modelled as Lean `String`, bytes as `List Nat`, Python
dicts as association lists in insertion order with the update semantics of
CPython (overwrite in place, append new keys at the end), and Python
exceptions as `Except String`.
-/

namespace Enscons

/-! ### Identifier normalizers (util.py lines 27-49) -/

/-- Membership in the Python regex character class [A-Za-z0-9.] of safe_name. -/
def safeNameChar (c : Char) : Bool := c.isAlphanum || c == '.'

/-- Membership in the Python regex character class [A-Za-z0-9.-] of safe_extra. -/
def safeExtraChar (c : Char) : Bool := c.isAlphanum || c == '.' || c == '-'

/-- Engine of re.sub applied with pattern [bad]+ and a one-character
replacement rep: every maximal run of bad characters becomes the single
character rep.  The flag records whether we are inside a run whose
replacement was already emitted. -/
def subRunsAux (bad : Char → Bool) (rep : Char) : Bool → List Char → List Char
  | _, [] => []
  | inRun, c :: cs =>
    if bad c then (if inRun then [] else [rep]) ++ subRunsAux bad rep true cs
    else c :: subRunsAux bad rep false cs

/-- re.sub of a character-class-complement pattern with a single character. -/
def subRuns (bad : Char → Bool) (rep : Char) (l : List Char) : List Char :=
  subRunsAux bad rep false l

/-- ASCII uppercase letters paired with their lowercase forms. -/
def asciiCaseTable : List (Char × Char) :=
  [('A', 'a'), ('B', 'b'), ('C', 'c'), ('D', 'd'), ('E', 'e'), ('F', 'f'),
   ('G', 'g'), ('H', 'h'), ('I', 'i'), ('J', 'j'), ('K', 'k'), ('L', 'l'),
   ('M', 'm'), ('N', 'n'), ('O', 'o'), ('P', 'p'), ('Q', 'q'), ('R', 'r'),
   ('S', 's'), ('T', 't'), ('U', 'u'), ('V', 'v'), ('W', 'w'), ('X', 'x'),
   ('Y', 'y'), ('Z', 'z')]

/-- Lowercasing of one character as performed by str.lower().  safe_extra
only ever lowercases the output of its substitution, whose characters are
ASCII (class characters or the replacement), so the ASCII table is a
faithful model of the Python call. -/
def pyLower (c : Char) : Char := (asciiCaseTable.lookup c).getD c

/-- util.safe_name: re.sub applied with pattern [^A-Za-z0-9.]+ and
replacement - on the whole name. -/
def safe_name (name : String) : String :=
  ⟨subRuns (fun c => !safeNameChar c) '-' name.data⟩

/-- util.safe_extra: re.sub applied with pattern [^A-Za-z0-9.-]+ and
replacement _, then str.lower(). -/
def safe_extra (extra : String) : String :=
  ⟨(subRuns (fun c => !safeExtraChar c) '_' extra.data).map pyLower⟩

/-- util.to_filename: name.replace applied to - and _. -/
def to_filename (name : String) : String :=
  ⟨name.data.map (fun c => if c == '-' then '_' else c)⟩

/-- __init__.normalize_package: to_filename composed with safe_name. -/
def normalize_package (name : String) : String := to_filename (safe_name name)

/-! ### Requirement expander (util.py lines 53-94) -/

/-- Rendered form of a parsed packaging Requirement: base is the rendering
of name, extras, version specifiers and direct URL; marker is the
environment marker, a raw string once generate_requirements has merged a
condition into it. -/
structure Req where
  base : String
  marker : Option String
deriving DecidableEq

/-- Rendering str(requirement): the marker follows the base after a
semicolon and a space. -/
def renderReq (r : Req) : String :=
  r.base ++ (match r.marker with | some m => "; " ++ m | none => "")

/-- Helper locating the first colon of a character list. -/
def splitColonAux : List Char → Option (List Char × List Char)
  | [] => none
  | c :: cs =>
    if c == ':' then some ([], cs)
    else (splitColonAux cs).map (fun p => (c :: p.1, p.2))

/-- Model of the setuptools extra:condition split in generate_requirements:
when the group name contains a colon it is split at the first colon into
the extra name and the literal condition, otherwise the condition is empty. -/
def splitColon (s : String) : String × String :=
  match splitColonAux s.data with
  | some (a, b) => (⟨a⟩, ⟨b⟩)
  | none => (s, "")

/-- Single apostrophe, used by the extra clause of environment markers. -/
def apos : String := ⟨['\'']⟩

/-- Marker clause comparing the active extra with a group name. -/
def extraClause (extra : String) : String := "extra == " ++ apos ++ extra ++ apos

/-- Marker merging of generate_requirements: a non-empty combined condition
is ANDed behind a parenthesized pre-existing marker, or becomes the marker
itself; an empty condition leaves the requirement untouched. -/
def mergeMarker (r : Req) (condition : String) : Req :=
  if condition ≠ "" then
    { r with marker := some (match r.marker with
        | some m => "(" ++ m ++ ") and " ++ condition
        | none => condition) }
  else r

/-- Records emitted for one dependency group by the loop body of
generate_requirements: the group name is split on the first colon, the
extra part is normalized by safe_extra; a non-empty extra is announced by a
Provides-Extra record and extends the condition with the extra clause
(parenthesizing a literal condition when one was present); every
requirement of the group is parsed, has the condition merged into its
marker, and is emitted as a Requires-Dist record. -/
def groupRecords (parse : String → Req) (g : String × List String) :
    List (String × String) :=
  let extra0 := (splitColon g.1).1
  let condition0 := (splitColon g.1).2
  let extra := safe_extra extra0
  let condition :=
    if extra ≠ "" then
      (if condition0 ≠ "" then ("(") ++ condition0 ++ ") and " else ("")) ++ extraClause extra
    else condition0
  (if extra ≠ "" then [("Provides-Extra", extra)] else [])
    ++ g.2.map (fun d => ("Requires-Dist", renderReq (mergeMarker (parse d) condition)))

/-- util.generate_requirements: the groups of the mapping are visited in
the mapping's iteration order and each group contributes its records in
order.  The packaging Requirement parser is an external collaborator and is
passed in as parse. -/
def generate_requirements (parse : String → Req)
    (extras_require : List (String × List String)) : List (String × String) :=
  extras_require.flatMap (groupRecords parse)

/-- Parser model for requirement strings that carry no environment marker
of their own (packaging renders such a requirement as its own text). -/
def parse0 : String → Req := fun s => ⟨s, none⟩

/-! ### Python dict model (insertion-ordered association lists) -/

/-- Presence of a key in an insertion-ordered dict. -/
def hasKey (d : List (String × α)) (k : String) : Bool :=
  d.any (fun p => p.1 == k)

/-- CPython d[k] = v: an existing key keeps its position and gets the new
value, a new key is appended at the end. -/
def dictSet (d : List (String × α)) (k : String) (v : α) : List (String × α) :=
  if hasKey d k then d.map (fun p => if p.1 == k then (k, v) else p)
  else d ++ [(k, v)]

/-- CPython d.update(e): the entries of e are written into d in order. -/
def dictUpdate (d e : List (String × α)) : List (String × α) :=
  e.foldl (fun acc p => dictSet acc p.1 p.2) d

/-- Value of the last binding of a key in a list of entries (the binding a
CPython dict built from those entries would retain). -/
def lookupLast (k : String) (e : List (String × α)) : Option α :=
  List.lookup k e.reverse

/-- Value of an entry-point group: either a list of raw lines (the non-PEP
621 extension) or a key-to-value table. -/
inductive EPValue where
  | strs (items : List String)
  | table (entries : List (String × String))
deriving DecidableEq

/-- Fields of the project metadata dict read by the builders of
__init__.py.  Optional fields model absent keys; gui_scripts models the
metadata key spelled gui-scripts. -/
structure ProjectMetadata where
  extras_require : List (String × List String) := []
  optional_dependencies : List (String × List String) := []
  install_requires : Option (List String) := none
  dependencies : Option (List String) := none
  entry_points : List (String × EPValue) := []
  scripts : Option (List (String × String)) := none
  gui_scripts : Option (List (String × String)) := none

/-- Composition of the full requirement mapping shared by metadata_builder
(__init__.py lines 323-330) and requires_txt_builder (lines 161-168):
extras_require, then optional-dependencies, then install_requires and
dependencies each assigned to the base key. -/
def full_requires (m : ProjectMetadata) : List (String × List String) :=
  let fr := dictUpdate (dictUpdate [] m.extras_require) m.optional_dependencies
  let fr := match m.install_requires with
    | some v => dictSet fr ("") v
    | none => fr
  match m.dependencies with
  | some v => dictSet fr ("") v
  | none => fr

/-- Entry-point group mapping built by entry_points_builder (__init__.py
lines 181-188): the entry_points table, then the scripts key assigned to
console_scripts, then the gui-scripts key assigned to gui_scripts. -/
def entry_points_map (m : ProjectMetadata) : List (String × EPValue) :=
  let ep := dictUpdate [] m.entry_points
  let ep := match m.scripts with
    | some s => dictSet ep ("console_scripts") (EPValue.table s)
    | none => ep
  match m.gui_scripts with
  | some s => dictSet ep ("gui_scripts") (EPValue.table s)
  | none => ep

/-- Sorting of dict items by key as performed by Python sorted(); keys of a
dict are distinct, so only the first components are compared. -/
def sortByKey (l : List (String × α)) : List (String × α) :=
  l.mergeSort (fun a b => decide (a.1 ≤ b.1))

/-- Lines written for one entry-point group by entry_points_builder: the
bracketed group header, then either the raw items of a list-valued group or
the key = value lines of a table-valued group sorted by key. -/
def groupLines (g : String) (v : EPValue) : List String :=
  ("[" ++ g ++ "]") :: (match v with
    | EPValue.strs items => items
    | EPValue.table entries => (sortByKey entries).map (fun e => e.1 ++ " = " ++ e.2))

/-- Lines of entry_points.txt: groups sorted by name, each rendered by
groupLines. -/
def entry_points_txt (m : ProjectMetadata) : List String :=
  (sortByKey (entry_points_map m)).flatMap (fun g => groupLines g.1 g.2)

/-! ### SHA-256 (the hashlib collaborator used by add_manifest) -/

/-- Truncation to a 32-bit word. -/
def w32 (n : Nat) : Nat := n % 4294967296

/-- Right rotation of a 32-bit word. -/
def rotr (k x : Nat) : Nat := w32 ((x >>> k) ||| (x <<< (32 - k)))

/-- Round constants of SHA-256. -/
def shaK : List Nat :=
  [1116352408, 1899447441, 3049323471, 3921009573,
   961987163, 1508970993, 2453635748, 2870763221,
   3624381080, 310598401, 607225278, 1426881987,
   1925078388, 2162078206, 2614888103, 3248222580,
   3835390401, 4022224774, 264347078, 604807628,
   770255983, 1249150122, 1555081692, 1996064986,
   2554220882, 2821834349, 2952996808, 3210313671,
   3336571891, 3584528711, 113926993, 338241895,
   666307205, 773529912, 1294757372, 1396182291,
   1695183700, 1986661051, 2177026350, 2456956037,
   2730485921, 2820302411, 3259730800, 3345764771,
   3516065817, 3600352804, 4094571909, 275423344,
   430227734, 506948616, 659060556, 883997877,
   958139571, 1322822218, 1537002063, 1747873779,
   1955562222, 2024104815, 2227730452, 2361852424,
   2428436474, 2756734187, 3204031479, 3329325298]

/-- Initial hash state of SHA-256. -/
def shaH0 : List Nat :=
  [1779033703, 3144134277, 1013904242, 2773480762,
   1359893119, 2600822924, 528734635, 1541459225]

/-- Big-endian bytes of a value, with a fixed width in bytes. -/
def beBytes : Nat → Nat → List Nat
  | 0, _ => []
  | k + 1, v => beBytes k (v / 256) ++ [v % 256]

/-- SHA-256 message padding: a 0x80 byte, zeros up to 56 mod 64, and the
bit length as eight big-endian bytes. -/
def shaPad (msg : List Nat) : List Nat :=
  msg ++ [0x80] ++ List.replicate ((119 - msg.length % 64) % 64) 0
    ++ beBytes 8 (8 * msg.length)

/-- Big-endian 32-bit words of a byte list. -/
def toWordsBE : List Nat → List Nat
  | b0 :: b1 :: b2 :: b3 :: rest =>
    (((b0 * 256 + b1) * 256 + b2) * 256 + b3) :: toWordsBE rest
  | _ => []

/-- Fuelled chunking of a list into 64-byte blocks. -/
def chunksAux : Nat → List Nat → List (List Nat)
  | 0, _ => []
  | f + 1, l => if l.isEmpty then [] else l.take 64 :: chunksAux f (l.drop 64)

/-- Chunking of a padded message into 64-byte blocks. -/
def chunks64 (l : List Nat) : List (List Nat) := chunksAux (l.length + 1) l

/-- Message-schedule sigma functions of SHA-256. -/
def smallSigma0 (x : Nat) : Nat := (rotr 7 x) ^^^ (rotr 18 x) ^^^ (x >>> 3)

/-- Second message-schedule sigma function. -/
def smallSigma1 (x : Nat) : Nat := (rotr 17 x) ^^^ (rotr 19 x) ^^^ (x >>> 10)

/-- Compression sigma functions of SHA-256. -/
def bigSigma0 (x : Nat) : Nat := (rotr 2 x) ^^^ (rotr 13 x) ^^^ (rotr 22 x)

/-- Second compression sigma function. -/
def bigSigma1 (x : Nat) : Nat := (rotr 6 x) ^^^ (rotr 11 x) ^^^ (rotr 25 x)

/-- Choice function on 32-bit words. -/
def chF (x y z : Nat) : Nat := (x &&& y) ^^^ ((x ^^^ 4294967295) &&& z)

/-- Majority function on 32-bit words. -/
def majF (x y z : Nat) : Nat := (x &&& y) ^^^ (x &&& z) ^^^ (y &&& z)

/-- Fuelled extension of the 16 message words to 64. -/
def scheduleAux : List Nat → Nat → List Nat
  | w, 0 => w
  | w, k + 1 =>
    scheduleAux
      (w ++ [w32 (smallSigma1 (w.getD (w.length - 2) 0) + w.getD (w.length - 7) 0
                  + smallSigma0 (w.getD (w.length - 15) 0) + w.getD (w.length - 16) 0)])
      k

/-- One round of the SHA-256 compression on the eight-word state. -/
def shaStep (st : List Nat) (kw : Nat × Nat) : List Nat :=
  match st with
  | [a, b, c, d, e, f, g, h] =>
    let t1 := w32 (h + bigSigma1 e + chF e f g + kw.1 + kw.2)
    let t2 := w32 (bigSigma0 a + majF a b c)
    [w32 (t1 + t2), a, b, c, w32 (d + t1), e, f, g]
  | _ => st

/-- Compression of one 64-byte block into the hash state. -/
def shaCompress (h : List Nat) (block : List Nat) : List Nat :=
  let w := scheduleAux (toWordsBE block) 48
  let final := (shaK.zip w).foldl shaStep h
  (h.zip final).map (fun p => w32 (p.1 + p.2))

/-- SHA-256 digest (32 bytes) of a byte list. -/
def sha256 (msg : List Nat) : List Nat :=
  ((chunks64 (shaPad msg)).foldl shaCompress shaH0).flatMap (beBytes 4)

/-! ### Manifest writer (__init__.py lines 372-374 and 400-424) -/

/-- Alphabet of URL-safe base64. -/
def b64Alphabet : List Char :=
  "ABCDEFGHIJKLMNOPQRSTUVWXYZabcdefghijklmnopqrstuvwxyz0123456789-_".data

/-- Character for a six-bit value. -/
def b64Char (n : Nat) : Char := b64Alphabet.getD n '?'

/-- URL-safe base64 encoding with padding (the base64.urlsafe_b64encode
collaborator). -/
def b64Encode : List Nat → List Char
  | a :: b :: c :: rest =>
    let v := a * 65536 + b * 256 + c
    b64Char (v / 262144 % 64) :: b64Char (v / 4096 % 64) :: b64Char (v / 64 % 64)
      :: b64Char (v % 64) :: b64Encode rest
  | [a, b] =>
    let v := a * 65536 + b * 256
    [b64Char (v / 262144 % 64), b64Char (v / 4096 % 64), b64Char (v / 64 % 64), '=']
  | [a] =>
    let v := a * 65536
    [b64Char (v / 262144 % 64), b64Char (v / 4096 % 64), '=', '=']
  | [] => []

/-- __init__.urlsafe_b64encode: base64.urlsafe_b64encode without the
trailing padding. -/
def urlsafe_b64encode (data : List Nat) : List Char :=
  ((b64Encode data).reverse.dropWhile (fun c => c == '=')).reverse

/-- Doubling of commas in an archive path, the RECORD escaping. -/
def escapeCommas (l : List Char) : List Char :=
  l.flatMap (fun c => if c == ',' then [',', ','] else [c])

/-- Decimal digit character. -/
def digitChar : Nat → Char
  | 0 => '0' | 1 => '1' | 2 => '2' | 3 => '3' | 4 => '4'
  | 5 => '5' | 6 => '6' | 7 => '7' | 8 => '8' | _ => '9'

/-- Fuelled decimal rendering of a natural number. -/
def natCharsAux : Nat → Nat → List Char
  | 0, _ => []
  | f + 1, n =>
    if n < 10 then [digitChar n]
    else natCharsAux f (n / 10) ++ [digitChar (n % 10)]

/-- Decimal rendering of a natural number, the str() of a Python size. -/
def natChars (n : Nat) : List Char := natCharsAux (n + 1) n

/-- Member of a finished wheel archive: its path in the zip and its bytes. -/
structure Member where
  path : String
  data : List Nat
deriving DecidableEq

/-- Manifest line of one content member, as described by the RECORD format:
the comma-escaped path, the sha256-prefixed URL-safe unpadded digest of the
bytes, and the byte count, comma separated. -/
def recordLine (path : String) (data : List Nat) : List Char :=
  escapeCommas path.data ++ [','] ++ ("sha256=".data ++ urlsafe_b64encode (sha256 data))
    ++ [','] ++ natChars data.length

/-- Joining of manifest lines by single newlines, the str.join of
add_manifest. -/
def joinLines : List (List Char) → List Char
  | [] => []
  | [l] => l
  | l :: ls => l ++ '\n' :: joinLines ls

/-- __init__.add_manifest: every existing archive member, in the archive's
enumeration order, contributes one line holding its escaped path, its
sha256-prefixed URL-safe unpadded digest and its byte count; a final
self-record for the RECORD path with empty hash and size fields is
appended, and the lines are joined with newlines. -/
def add_manifest (members : List Member) (recordPath : String) : String :=
  let lines := members.map (fun m =>
    let size := m.data.length
    let digest := "sha256=".data ++ urlsafe_b64encode (sha256 m.data)
    escapeCommas m.path.data ++ [','] ++ digest ++ [','] ++ natChars size)
  ⟨joinLines (lines ++ [recordPath.data ++ [',', ',']])⟩

/-- Splitting of a character list at newlines, the record recovery used to
state manifest completeness. -/
def splitNl : List Char → List (List Char)
  | [] => [[]]
  | c :: cs =>
    if c == '\n' then [] :: splitNl cs
    else
      match splitNl cs with
      | [] => [[c]]
      | h :: t => (c :: h) :: t

/-! ### Tag resolver (__init__.py lines 427-480 and 714-723) -/

/-- Decimal rendering of a Python int. -/
def intStr (i : Int) : String :=
  ⟨if i < 0 then '-' :: natChars i.natAbs else natChars i.natAbs⟩

/-- Lowercasing of a string as applied to the ABI tag. -/
def strLower (s : String) : String := ⟨s.data.map pyLower⟩

/-- Python str.endswith. -/
def endswith (s suffix : String) : Bool := List.isSuffixOf suffix.data s.data

/-- Inputs of get_tag: the purelib flag, the optional limited-ABI target
(a Python tuple modelled as a list of ints), and the interpreter, ABI and
platform facts probed from the host (external collaborators). -/
structure TagEnv where
  root_is_purelib : Bool
  limited_api_target : Option (List Int)
  interpreter_name : String
  interpreter_version : String
  abi_tag : String
  platform : String

/-- __init__.get_tag: a purelib build resolves the universal tag; a
non-purelib build with a limited-ABI target validates the (major, minor)
pair and produces the stable-ABI tag, and otherwise the most specific
interpreter tag is produced from the host facts. -/
def get_tag (env : TagEnv) : Except String String :=
  if env.root_is_purelib then Except.ok ("py3-none-any")
  else
    match env.limited_api_target with
    | some target =>
      match target with
      | [major, minor] =>
        if major ≠ 3 ∨ minor < 2 then Except.error ("cannot target abi below 3.2")
        else
          Except.ok (("cp" ++ String.join (target.map intStr)) ++ "-" ++ "abi3"
            ++ "-" ++ env.platform)
      | _ => Except.error ("target is not a 2-tuple")
    | none =>
      Except.ok ((env.interpreter_name ++ env.interpreter_version) ++ "-"
        ++ strLower env.abi_tag ++ "-" ++ env.platform)

/-- Defaulting of ROOT_IS_PURELIB in enscons_defaults: a preset value is
kept, otherwise the flag is whether WHEEL_TAG ends with none-any. -/
def default_root_is_purelib (preset : Option Bool) (wheel_tag : String) : Bool :=
  match preset with
  | some b => b
  | none => endswith wheel_tag ("none-any")

/-- Wheel filename computed by correct_wheel_tags: the name-version joined
with the resolved tag by a dash, with the .whl ending. -/
def wheel_file_name (namever tag : String) : String :=
  (namever ++ "-" ++ tag) ++ ".whl"

/-! ### Theorems: identifier normalizers (claim C8) -/

theorem subRunsAux_bad_eq_rep (bad : Char → Bool) (rep : Char) :
    ∀ (flag : Bool) (l : List Char), ∀ c ∈ subRunsAux bad rep flag l, bad c = true → c = rep := by
  intro flag l
  induction l generalizing flag with
  | nil =>
    intro c hc
    rw [subRunsAux] at hc
    exact absurd hc (List.not_mem_nil c)
  | cons a l ih =>
    intro c hc hbad
    rw [subRunsAux] at hc
    by_cases hba : bad a = true
    · rw [if_pos hba] at hc
      rcases List.mem_append.1 hc with h | h
      · cases flag with
        | true =>
          rw [if_pos rfl] at h
          exact absurd h (List.not_mem_nil c)
        | false =>
          rw [if_neg (by simp)] at h
          rw [List.mem_singleton.1 h]
      · exact ih true c h hbad
    · rw [if_neg hba] at hc
      rcases List.mem_cons.1 hc with rfl | h
      · exact absurd hbad hba
      · exact ih false c h hbad

theorem subRunsAux_true_head (bad : Char → Bool) (rep : Char) :
    ∀ (l : List Char) (c : Char), (subRunsAux bad rep true l).head? = some c → bad c = false := by
  intro l
  induction l with
  | nil =>
    intro c hc
    rw [subRunsAux] at hc
    exact absurd hc (by simp)
  | cons a l ih =>
    intro c hc
    rw [subRunsAux] at hc
    by_cases hba : bad a = true
    · rw [if_pos hba, if_pos rfl, List.nil_append] at hc
      exact ih c hc
    · rw [if_neg hba, List.head?_cons] at hc
      injection hc with hc
      rw [← hc]
      simpa using hba

theorem subRunsAux_chain (bad : Char → Bool) (rep : Char) :
    ∀ (flag : Bool) (l : List Char),
      List.Chain' (fun a b => bad a = true → bad b = false) (subRunsAux bad rep flag l) := by
  intro flag l
  induction l generalizing flag with
  | nil =>
    rw [subRunsAux]
    exact List.chain'_nil
  | cons a l ih =>
    rw [subRunsAux]
    by_cases hba : bad a = true
    · rw [if_pos hba]
      cases flag with
      | true =>
        rw [if_pos rfl, List.nil_append]
        exact ih true
      | false =>
        rw [if_neg (by simp), List.singleton_append, List.chain'_cons']
        exact ⟨fun y hy _ => subRunsAux_true_head bad rep l y hy, ih true⟩
    · rw [if_neg hba, List.chain'_cons']
      exact ⟨fun y _ hcontra => absurd hcontra hba, ih false⟩

theorem subRunsAux_fixed (bad : Char → Bool) (rep : Char) :
    ∀ (l : List Char), List.Chain' (fun a b => bad a = true → bad b = false) l →
      (∀ c ∈ l, bad c = true → c = rep) →
      subRunsAux bad rep false l = l
        ∧ ((∀ c, l.head? = some c → bad c = false) → subRunsAux bad rep true l = l) := by
  intro l
  induction l with
  | nil => exact fun _ _ => ⟨rfl, fun _ => rfl⟩
  | cons a l ih =>
    intro hchain hrep
    have hchain' := (List.chain'_cons'.1 hchain).2
    have hrel := (List.chain'_cons'.1 hchain).1
    have hrep' : ∀ c ∈ l, bad c = true → c = rep :=
      fun c hc => hrep c (List.mem_cons_of_mem a hc)
    have IH := ih hchain' hrep'
    constructor
    · rw [subRunsAux]
      by_cases hba : bad a = true
      · rw [if_pos hba, if_neg (by simp), List.singleton_append]
        have harep : a = rep := hrep a (List.mem_cons_self a l) hba
        have htail : subRunsAux bad rep true l = l :=
          IH.2 (fun c hc => hrel c hc hba)
        rw [htail, ← harep]
      · rw [if_neg hba, IH.1]
    · intro hhead
      rw [subRunsAux]
      by_cases hba : bad a = true
      · exact absurd hba (by simp [hhead a rfl])
      · rw [if_neg hba, IH.1]

theorem lookup_mem {t : List (Char × Char)} {c d : Char} (h : t.lookup c = some d) :
    (c, d) ∈ t := by
  induction t with
  | nil => simp [List.lookup] at h
  | cons p t ih =>
    obtain ⟨k, v⟩ := p
    by_cases hk : (c == k) = true
    · have hck : c = k := eq_of_beq hk
      simp only [List.lookup, hk] at h
      injection h with h
      rw [hck, ← h]
      exact List.mem_cons_self _ _
    · have hk' : (c == k) = false := by simpa using hk
      simp only [List.lookup, hk'] at h
      exact List.mem_cons_of_mem _ (ih h)

theorem asciiCaseTable_good :
    ∀ p ∈ asciiCaseTable, safeExtraChar p.2 = true ∧ asciiCaseTable.lookup p.2 = none := by
  decide

theorem pyLower_good {c : Char} (h : safeExtraChar c = true) :
    safeExtraChar (pyLower c) = true := by
  rw [pyLower]
  cases hl : asciiCaseTable.lookup c with
  | none => simpa using h
  | some d =>
    simp only [Option.getD_some]
    exact (asciiCaseTable_good (c, d) (lookup_mem hl)).1

theorem pyLower_pyLower (c : Char) : pyLower (pyLower c) = pyLower c := by
  cases hl : asciiCaseTable.lookup c with
  | none => simp [pyLower, hl]
  | some d =>
    have hc : pyLower c = d := by simp [pyLower, hl]
    rw [hc, pyLower, (asciiCaseTable_good (c, d) (lookup_mem hl)).2]
    rfl

theorem subRuns_map_idem (bad : Char → Bool) (rep : Char) (f : Char → Char)
    (hrepfix : f rep = rep)
    (hmapbad : ∀ c, bad (f c) = true → bad c = true)
    (hmapgood : ∀ c, bad c = false → bad (f c) = false)
    (hidem : ∀ c, f (f c) = f c)
    (l : List Char) :
    (subRuns bad rep ((subRuns bad rep l).map f)).map f = (subRuns bad rep l).map f := by
  have hchain : List.Chain' (fun a b => bad a = true → bad b = false)
      ((subRuns bad rep l).map f) := by
    rw [List.chain'_map]
    refine List.Chain'.imp ?_ (subRunsAux_chain bad rep false l)
    intro a b hab h
    exact hmapgood b (hab (hmapbad a h))
  have hrep : ∀ c ∈ (subRuns bad rep l).map f, bad c = true → c = rep := by
    intro c hc hbadc
    rcases List.mem_map.1 hc with ⟨c', hc', rfl⟩
    have hbc' := hmapbad c' hbadc
    rw [subRunsAux_bad_eq_rep bad rep false l c' hc' hbc']
    exact hrepfix
  have hfix := (subRunsAux_fixed bad rep ((subRuns bad rep l).map f) hchain hrep).1
  show (subRunsAux bad rep false ((subRuns bad rep l).map f)).map f = _
  rw [hfix, List.map_map]
  apply List.map_congr_left
  intro c _
  show f (f c) = f c
  exact hidem c

theorem safe_name_idem (s : String) : safe_name (safe_name s) = safe_name s := by
  apply String.ext
  show subRunsAux (fun c => !safeNameChar c) '-' false
      (subRunsAux (fun c => !safeNameChar c) '-' false s.data)
    = subRunsAux (fun c => !safeNameChar c) '-' false s.data
  exact (subRunsAux_fixed (fun c => !safeNameChar c) '-' _
    (subRunsAux_chain (fun c => !safeNameChar c) '-' false s.data)
    (subRunsAux_bad_eq_rep (fun c => !safeNameChar c) '-' false s.data)).1

theorem to_filename_idem (s : String) : to_filename (to_filename s) = to_filename s := by
  apply String.ext
  show List.map _ (List.map _ s.data) = List.map _ s.data
  rw [List.map_map]
  apply List.map_congr_left
  intro c _
  by_cases h : (c == '-') = true
  · have hc : c = '-' := eq_of_beq h
    subst hc
    decide
  · have h' : (c == '-') = false := by simpa using h
    simp [Function.comp, h']

theorem safe_extra_idem (s : String) : safe_extra (safe_extra s) = safe_extra s := by
  apply String.ext
  refine subRuns_map_idem (fun c => !safeExtraChar c) '_' pyLower (by decide) ?_ ?_
    pyLower_pyLower s.data
  · intro c h
    by_cases hc : safeExtraChar c = true
    · have := pyLower_good hc
      simp [this] at h
    · simpa using hc
  · intro c h
    have hc : safeExtraChar c = true := by simpa using h
    have := pyLower_good hc
    simp [this]

/-- C8: safe_name, to_filename and safe_extra are idempotent pure functions:
applying each of them twice equals applying it once, for every input
string. -/
theorem normalizers_idempotent :
    (∀ s : String, safe_name (safe_name s) = safe_name s)
  ∧ (∀ s : String, to_filename (to_filename s) = to_filename s)
  ∧ (∀ s : String, safe_extra (safe_extra s) = safe_extra s) :=
  ⟨safe_name_idem, to_filename_idem, safe_extra_idem⟩

/-! ### Helper lemmas: group-name splitting and marker clauses -/

theorem splitColonAux_no_colon : ∀ (l : List Char), ':' ∉ l → splitColonAux l = none := by
  intro l h
  induction l with
  | nil => rfl
  | cons c cs ih =>
    rw [splitColonAux]
    have hc : (c == ':') = false := by
      have : c ≠ ':' := fun hcc => h (hcc ▸ List.mem_cons_self c cs)
      simpa using this
    rw [if_neg (by simp [hc])]
    rw [ih (fun hm => h (List.mem_cons_of_mem c hm))]
    rfl

theorem splitColonAux_found : ∀ (a : List Char), ':' ∉ a →
    ∀ (b : List Char), splitColonAux (a ++ ':' :: b) = some (a, b) := by
  intro a ha
  induction a with
  | nil =>
    intro b
    rw [List.nil_append, splitColonAux, if_pos (by simp)]
  | cons c cs ih =>
    intro b
    rw [List.cons_append, splitColonAux]
    have hc : (c == ':') = false := by
      have : c ≠ ':' := fun hcc => ha (hcc ▸ List.mem_cons_self c cs)
      simpa using this
    rw [if_neg (by simp [hc]), ih (fun hm => ha (List.mem_cons_of_mem c hm)) b]
    rfl

theorem splitColon_no_colon (s : String) (h : ':' ∉ s.data) : splitColon s = (s, "") := by
  rw [splitColon, splitColonAux_no_colon s.data h]

theorem splitColon_append (a b : String) (h : ':' ∉ a.data) :
    splitColon (a ++ ":" ++ b) = (a, b) := by
  rw [splitColon]
  have hdata : (a ++ ":" ++ b).data = a.data ++ ':' :: b.data := by
    rw [String.data_append, String.data_append, List.append_assoc]
    have hcolon : (":").data = [':'] := by decide
    rw [hcolon]
    rfl
  rw [hdata, splitColonAux_found a.data h b.data]

theorem append_extraClause_ne (p e : String) : p ++ extraClause e ≠ "" := by
  intro h
  have hd := congrArg String.data h
  rw [String.data_append] at hd
  rcases List.append_eq_nil.1 hd with ⟨-, h2⟩
  rw [extraClause, String.data_append] at h2
  rcases List.append_eq_nil.1 h2 with ⟨-, h3⟩
  rw [apos] at h3
  exact List.cons_ne_nil _ _ h3

theorem extraClause_ne (e : String) : extraClause e ≠ "" := by
  intro h
  have hd := congrArg String.data h
  rw [extraClause, String.data_append] at hd
  rcases List.append_eq_nil.1 hd with ⟨-, h3⟩
  rw [apos] at h3
  exact List.cons_ne_nil _ _ h3

/-! ### Helper lemmas: the Python dict model -/

theorem beq_symm_false {a b : String} (h : (a == b) = false) : (b == a) = false := by
  have hne : a ≠ b := by simpa using h
  simpa using (Ne.symm hne)

theorem hasKey_cons (a : String) (b : α) (d : List (String × α)) (k : String) :
    hasKey ((a, b) :: d) k = ((a == k) || hasKey d k) := rfl

theorem hasKey_all_ne {d : List (String × α)} {k : String} (h : hasKey d k = false) :
    ∀ p ∈ d, (p.1 == k) = false := by
  intro p hp
  cases hpk : (p.1 == k) with
  | false => rfl
  | true => exact absurd hpk (List.any_eq_false.1 h p hp)

theorem lookup_not_hasKey {d : List (String × α)} {k : String} (h : hasKey d k = false) :
    List.lookup k d = none := by
  induction d with
  | nil => rfl
  | cons p d ih =>
    obtain ⟨a, b⟩ := p
    rw [hasKey_cons] at h
    have h1 : (a == k) = false := by
      cases hx : (a == k)
      · rfl
      · rw [hx] at h; simp at h
    have h2 : hasKey d k = false := by
      cases hx : hasKey d k
      · rfl
      · rw [hx] at h; simp at h
    rw [List.lookup, beq_symm_false h1]
    exact ih h2

theorem lookup_append_left {l₁ l₂ : List (String × α)} {k : String} {v : α}
    (h : List.lookup k l₁ = some v) : List.lookup k (l₁ ++ l₂) = some v := by
  induction l₁ with
  | nil => simp [List.lookup] at h
  | cons p l₁ ih =>
    obtain ⟨a, b⟩ := p
    rw [List.cons_append, List.lookup]
    rw [List.lookup] at h
    cases hk : (k == a) with
    | true => rw [hk] at h; exact h
    | false => rw [hk] at h; exact ih h

theorem lookup_append_right {l₁ l₂ : List (String × α)} {k : String}
    (h : List.lookup k l₁ = none) : List.lookup k (l₁ ++ l₂) = List.lookup k l₂ := by
  induction l₁ with
  | nil => rfl
  | cons p l₁ ih =>
    obtain ⟨a, b⟩ := p
    rw [List.cons_append, List.lookup]
    rw [List.lookup] at h
    cases hk : (k == a) with
    | true => rw [hk] at h; exact absurd h (by simp)
    | false => rw [hk] at h; exact ih h

theorem lookup_map_overwrite (d : List (String × α)) (k : String) (v : α)
    (h : hasKey d k = true) :
    List.lookup k (d.map (fun p => if p.1 == k then (k, v) else p)) = some v := by
  induction d with
  | nil => simp [hasKey] at h
  | cons p d ih =>
    obtain ⟨a, b⟩ := p
    by_cases hak : a = k
    · subst hak
      have hmap : List.map (fun p => if p.1 == a then (a, v) else p) ((a, b) :: d)
          = (a, v) :: List.map (fun p => if p.1 == a then (a, v) else p) d := by
        simp
      rw [hmap, List.lookup, beq_self_eq_true]
    · have hak' : (a == k) = false := by simpa using hak
      have hka' : (k == a) = false := beq_symm_false hak'
      have h2 : hasKey d k = true := by
        rw [hasKey_cons, hak'] at h
        simpa using h
      simp only [List.map_cons, hak', Bool.false_eq_true, if_false]
      rw [List.lookup, hka']
      exact ih h2

theorem lookup_map_overwrite_ne (d : List (String × α)) (k k' : String) (v : α)
    (h : (k' == k) = false) :
    List.lookup k' (d.map (fun p => if p.1 == k then (k, v) else p)) = List.lookup k' d := by
  induction d with
  | nil => rfl
  | cons p d ih =>
    obtain ⟨a, b⟩ := p
    by_cases hak : a = k
    · subst hak
      simp only [List.map_cons, beq_self_eq_true, if_true]
      rw [List.lookup, List.lookup, h]
      exact ih
    · have hak' : (a == k) = false := by simpa using hak
      simp only [List.map_cons, hak', Bool.false_eq_true, if_false]
      rw [List.lookup, List.lookup]
      cases hke : (k' == a) with
      | true => rfl
      | false => exact ih

theorem lookup_dictSet_self (d : List (String × α)) (k : String) (v : α) :
    List.lookup k (dictSet d k v) = some v := by
  rw [dictSet]
  by_cases hk : hasKey d k = true
  · rw [if_pos hk]
    exact lookup_map_overwrite d k v hk
  · rw [if_neg hk]
    have hnone := lookup_not_hasKey (show hasKey d k = false by simpa using hk)
    rw [lookup_append_right hnone, List.lookup, beq_self_eq_true]

theorem lookup_dictSet_ne (d : List (String × α)) (k k' : String) (v : α)
    (h : (k' == k) = false) : List.lookup k' (dictSet d k v) = List.lookup k' d := by
  rw [dictSet]
  by_cases hk : hasKey d k = true
  · rw [if_pos hk]
    exact lookup_map_overwrite_ne d k k' v h
  · rw [if_neg hk]
    cases hl : List.lookup k' d with
    | some w => rw [lookup_append_left hl]
    | none =>
      rw [lookup_append_right hl]
      simp [List.lookup, h]

theorem lookup_dictUpdate (d e : List (String × α)) (k : String) :
    List.lookup k (dictUpdate d e)
      = (match lookupLast k e with
         | some v => some v
         | none => List.lookup k d) := by
  induction e generalizing d with
  | nil => rfl
  | cons p e ih =>
    obtain ⟨pk, pv⟩ := p
    have hupd : dictUpdate d ((pk, pv) :: e) = dictUpdate (dictSet d pk pv) e := rfl
    have hrev : lookupLast k ((pk, pv) :: e) = List.lookup k (e.reverse ++ [(pk, pv)]) := by
      rw [lookupLast, List.reverse_cons]
    rw [hupd, ih]
    cases m : lookupLast k e with
    | some w =>
      have : lookupLast k ((pk, pv) :: e) = some w := by
        rw [hrev]
        exact lookup_append_left (by rw [← lookupLast]; exact m)
      rw [this]
    | none =>
      have hm : List.lookup k e.reverse = none := m
      cases hk : (k == pk) with
      | true =>
        have hkk : k = pk := eq_of_beq hk
        subst hkk
        have : lookupLast k ((k, pv) :: e) = some pv := by
          rw [hrev, lookup_append_right hm, List.lookup, beq_self_eq_true]
        rw [this, lookup_dictSet_self]
      | false =>
        have : lookupLast k ((pk, pv) :: e) = none := by
          rw [hrev, lookup_append_right hm, List.lookup, hk]
          rfl
        rw [this, lookup_dictSet_ne d pk k pv hk]

theorem hasKey_dictSet_false {d : List (String × α)} {k k' : String} {v : α}
    (hd : hasKey d k = false) (hk : (k' == k) = false) :
    hasKey (dictSet d k' v) k = false := by
  rw [dictSet]
  by_cases h : hasKey d k' = true
  · rw [if_pos h, hasKey]
    apply List.any_eq_false.2
    intro p hp
    rcases List.mem_map.1 hp with ⟨q, hq, rfl⟩
    by_cases hq1 : q.1 = k'
    · simp only [hq1, beq_self_eq_true, if_true]
      simp [show ¬((k', v).1 == k) = true by simp [show k' ≠ k by simpa using hk]]
    · have : (q.1 == k') = false := by simpa using hq1
      simp only [this, Bool.false_eq_true, if_false]
      simp [hasKey_all_ne hd q hq]
  · rw [if_neg h, hasKey, List.any_append]
    have h1 : List.any d (fun p => p.1 == k) = false := hd
    rw [h1]
    simp [show ¬((k', v).1 == k) = true by simp [show k' ≠ k by simpa using hk]]

theorem hasKey_dictUpdate_false {e d : List (String × α)} {k : String}
    (hd : hasKey d k = false) (he : hasKey e k = false) :
    hasKey (dictUpdate d e) k = false := by
  induction e generalizing d with
  | nil => exact hd
  | cons p e ih =>
    obtain ⟨pk, pv⟩ := p
    rw [hasKey_cons] at he
    have he1 : (pk == k) = false := by
      cases hx : (pk == k)
      · rfl
      · rw [hx] at he; simp at he
    have he2 : hasKey e k = false := by
      cases hx : hasKey e k
      · rfl
      · rw [hx] at he; simp at he
    exact ih (hasKey_dictSet_false hd he1) he2

theorem dictSet_no_key {d : List (String × α)} {k : String} (v : α)
    (h : hasKey d k = false) : dictSet d k v = d ++ [(k, v)] := by
  rw [dictSet, if_neg (by simp [h])]

theorem dictSet_append_self {d : List (String × α)} {k : String} (xs v : α)
    (h : hasKey d k = false) : dictSet (d ++ [(k, xs)]) k v = d ++ [(k, v)] := by
  rw [dictSet]
  have hhas : hasKey (d ++ [(k, xs)]) k = true := by
    rw [hasKey, List.any_append]
    simp
  rw [if_pos hhas, List.map_append]
  congr 1
  · have hmapid : List.map (fun p : String × α => if p.1 == k then (k, v) else p) d
        = List.map id d := by
      apply List.map_congr_left
      intro q hq
      simp only [hasKey_all_ne h q hq, Bool.false_eq_true, if_false, id]
    rw [hmapid, List.map_id]
  · simp

/-! ### Theorems: group visiting order (claim C1) -/

/-- C1 counterexample: generate_requirements does not sort the groups; its
output differs between two mappings holding the same groups in different
insertion orders, and with the base group inserted last (as metadata_builder
does) the first emitted record belongs to the named group test, not to the
base group. -/
theorem generate_requirements_order_dependent :
    generate_requirements parse0 [("test", ["pytest"]), ("", ["six"])]
      ≠ generate_requirements parse0 [("", ["six"]), ("test", ["pytest"])]
  ∧ (generate_requirements parse0 [("test", ["pytest"]), ("", ["six"])]).head?
      = some ("Provides-Extra", "test") :=
  ⟨by decide, by decide⟩

/-- C1 amended: generate_requirements visits the groups in the mapping's
iteration (insertion) order, each group contributing its records as one
contiguous block; and in the mapping composed by metadata_builder the base
group coming from the dependencies key is inserted last whenever it is not
already a key of extras_require or optional-dependencies, hence emitted
after every named group. -/
theorem generate_requirements_insertion_order :
    (∀ (parse : String → Req) (gs₁ gs₂ : List (String × List String)),
        generate_requirements parse (gs₁ ++ gs₂)
          = generate_requirements parse gs₁ ++ generate_requirements parse gs₂)
  ∧ (∀ (m : ProjectMetadata) (ys : List String), m.dependencies = some ys →
        hasKey m.extras_require ("") = false → hasKey m.optional_dependencies ("") = false →
        ∃ d, full_requires m = d ++ [("", ys)] ∧ hasKey d ("") = false) := by
  constructor
  · intro parse gs₁ gs₂
    exact List.flatMap_append gs₁ gs₂ (groupRecords parse)
  · intro m ys hdep hex hopt
    obtain ⟨ex, od, inst, dep, rest⟩ := m
    have hfr0 : hasKey (dictUpdate (dictUpdate [] ex) od) ("") = false :=
      hasKey_dictUpdate_false (hasKey_dictUpdate_false rfl hex) hopt
    refine ⟨dictUpdate (dictUpdate [] ex) od, ?_, hfr0⟩
    subst hdep
    cases hin : inst with
    | none =>
      simp only [full_requires]
      exact dictSet_no_key ys hfr0
    | some xs =>
      simp only [full_requires]
      rw [dictSet_no_key xs hfr0]
      exact dictSet_append_self xs ys hfr0

theorem generate_requirements_insertion_order_witness :
    generate_requirements parse0 ([("test", ["pytest"])] ++ [("", ["six"])])
      = generate_requirements parse0 [("test", ["pytest"])]
          ++ generate_requirements parse0 [("", ["six"])]
  ∧ ∃ d, full_requires ⟨[], [("test", ["pytest"])], none, some ["six"], [], none, none⟩
        = d ++ [("", ["six"])] ∧ hasKey d ("") = false :=
  ⟨(generate_requirements_insertion_order).1 parse0 _ _,
   (generate_requirements_insertion_order).2 _ ["six"] rfl rfl (by decide)⟩

/-! ### Theorems: dependencies versus install_requires (claim C9) -/

/-- C9: in the requirement mapping composed by metadata_builder and
requires_txt_builder, the dependencies key overwrites the base group set
from install_requires (the install_requires value is discarded), and a
group written by optional-dependencies overwrites a same-named group of
extras_require (the lookup yields the optional-dependencies value). -/
theorem dependencies_override_install_requires (m : ProjectMetadata) :
    (∀ ys, m.dependencies = some ys → List.lookup ("") (full_requires m) = some ys)
  ∧ (∀ g vs, g ≠ "" → lookupLast g m.optional_dependencies = some vs →
        List.lookup g (full_requires m) = some vs) := by
  obtain ⟨ex, od, inst, dep, rest⟩ := m
  constructor
  · intro ys hy
    subst hy
    simp only [full_requires]
    exact lookup_dictSet_self _ ("") ys
  · intro g vs hg hvs
    have hbeq : (g == "") = false := by simpa using hg
    have hlook : List.lookup g (dictUpdate (dictUpdate [] ex) od) = some vs := by
      rw [lookup_dictUpdate, hvs]
    cases hdep : dep with
    | none =>
      cases hin : inst with
      | none =>
        simp only [full_requires]
        exact hlook
      | some xs =>
        simp only [full_requires]
        rw [lookup_dictSet_ne _ ("") g xs hbeq]
        exact hlook
    | some ys =>
      cases hin : inst with
      | none =>
        simp only [full_requires]
        rw [lookup_dictSet_ne _ ("") g ys hbeq]
        exact hlook
      | some xs =>
        simp only [full_requires]
        rw [lookup_dictSet_ne _ ("") g ys hbeq, lookup_dictSet_ne _ ("") g xs hbeq]
        exact hlook

theorem dependencies_override_install_requires_witness :
    List.lookup ("")
        (full_requires ⟨[("test", ["old"])], [("test", ["pytest"])],
          some ["legacy"], some ["six"], [], none, none⟩)
      = some ["six"]
  ∧ List.lookup ("test")
        (full_requires ⟨[("test", ["old"])], [("test", ["pytest"])],
          some ["legacy"], some ["six"], [], none, none⟩)
      = some ["pytest"] :=
  ⟨(dependencies_override_install_requires _).1 ["six"] rfl,
   (dependencies_override_install_requires _).2 ("test") ["pytest"] (by decide) (by decide)⟩

/-! ### Theorems: scripts versus entry_points (claim C10) -/

/-- C10: entry_points_builder overwrites the console_scripts group of a
directly supplied entry_points table with the scripts mapping, wholesale
and not merged, and likewise gui_scripts with the gui-scripts mapping; a
table-valued group renders as its bracketed header followed by its key =
value lines sorted by key. -/
theorem scripts_replace_console_scripts (m : ProjectMetadata) :
    (∀ s, m.scripts = some s →
        List.lookup ("console_scripts") (entry_points_map m) = some (EPValue.table s))
  ∧ (∀ s, m.gui_scripts = some s →
        List.lookup ("gui_scripts") (entry_points_map m) = some (EPValue.table s))
  ∧ (∀ (g : String) (s : List (String × String)),
        groupLines g (EPValue.table s)
          = ("[" ++ g ++ "]") :: (sortByKey s).map (fun e => e.1 ++ " = " ++ e.2)) := by
  obtain ⟨ex, od, inst, dep, ep, sc, gu⟩ := m
  refine ⟨?_, ?_, fun g s => rfl⟩
  · intro s hs
    subst hs
    cases hgu : gu with
    | none =>
      simp only [entry_points_map]
      exact lookup_dictSet_self _ _ _
    | some t =>
      simp only [entry_points_map]
      rw [lookup_dictSet_ne _ _ _ _ (by decide)]
      exact lookup_dictSet_self _ _ _
  · intro s hs
    subst hs
    simp only [entry_points_map]
    exact lookup_dictSet_self _ _ _

theorem scripts_replace_console_scripts_witness :
    List.lookup ("console_scripts")
        (entry_points_map ⟨[], [], none, none,
          [("console_scripts", EPValue.table [("other", "othermod.main")])],
          some [("mytool", "pkg.mod:main")], none⟩)
      = some (EPValue.table [("mytool", "pkg.mod:main")]) :=
  (scripts_replace_console_scripts _).1 _ rfl

/-! ### Theorems: Provides-Extra and markers (claims C3, C5) -/

theorem suffix_data_append (x y : String) : y.data <:+ (x ++ y).data := by
  rw [String.data_append]
  exact List.suffix_append x.data y.data

theorem extraClause_suffix_render (r : Req) (pre extra : String) :
    (extraClause extra).data
      <:+ (renderReq (mergeMarker r (pre ++ extraClause extra))).data := by
  have hcne : pre ++ extraClause extra ≠ "" := append_extraClause_ne pre extra
  have h1 : (extraClause extra).data <:+ (pre ++ extraClause extra).data :=
    suffix_data_append pre (extraClause extra)
  rw [mergeMarker, if_pos hcne]
  cases hm : r.marker with
  | some m =>
    have h2 : (pre ++ extraClause extra).data
        <:+ ("(" ++ m ++ ") and " ++ (pre ++ extraClause extra)).data :=
      suffix_data_append _ _
    have h3 := suffix_data_append ("; ") ("(" ++ m ++ ") and " ++ (pre ++ extraClause extra))
    have h4 := suffix_data_append r.base
      ("; " ++ ("(" ++ m ++ ") and " ++ (pre ++ extraClause extra)))
    exact h1.trans (h2.trans (h3.trans h4))
  | none =>
    have h3 := suffix_data_append ("; ") (pre ++ extraClause extra)
    have h4 := suffix_data_append r.base ("; " ++ (pre ++ extraClause extra))
    exact h1.trans (h3.trans h4)

theorem filterMap_const_none (l : List α) :
    l.filterMap (fun _ => (none : Option β)) = [] := by
  induction l with
  | nil => rfl
  | cons a l ih => rw [List.filterMap_cons]; exact ih

theorem filterMap_pe_groupRecords (parse : String → Req) (g : String × List String) :
    (groupRecords parse g).filterMap
        (fun r => if r.1 == "Provides-Extra" then some r.2 else none)
      = (if safe_extra (splitColon g.1).1 = "" then []
         else [safe_extra (splitColon g.1).1]) := by
  simp only [groupRecords]
  rw [List.filterMap_append]
  have hmapnil : ∀ (F : String → String × String), (∀ d, (F d).1 = "Requires-Dist") →
      (g.2.map F).filterMap
        (fun r => if r.1 == "Provides-Extra" then some r.2 else none) = [] := by
    intro F hF
    rw [List.filterMap_map]
    calc (g.2.filterMap ((fun r : String × String =>
            if r.1 == "Provides-Extra" then some r.2 else none) ∘ F))
        = g.2.filterMap (fun _ => (none : Option String)) := by
          apply List.filterMap_congr
          intro d _
          simp [Function.comp, hF d,
            show (("Requires-Dist" : String) == "Provides-Extra") = false by decide]
      _ = [] := filterMap_const_none g.2
  rw [hmapnil _ (fun d => rfl), List.append_nil]
  by_cases he : safe_extra (splitColon g.1).1 = ""
  · rw [if_neg (fun hc => hc he), if_pos he]
    rfl
  · rw [if_pos he, if_neg he]
    rw [List.filterMap_cons]
    simp

/-- C3 counterexample: a dependency group with a non-empty normalized name
but no requirement still emits its Provides-Extra record, so the emitted
Provides-Extra names differ from the set of non-empty normalized names with
at least one requirement. -/
theorem provides_extra_empty_group_counterexample :
    (generate_requirements parse0 [("test", ([] : List String))]).filterMap
        (fun r => if r.1 == "Provides-Extra" then some r.2 else none)
      ≠ [(("test" : String), ([] : List String))].filterMap
          (fun g => if safe_extra (splitColon g.1).1 ≠ "" ∧ g.2 ≠ [] then
              some (safe_extra (splitColon g.1).1) else none) := by
  decide

/-- C3 amended: generate_requirements emits one Provides-Extra record per
mapping entry whose normalized group name is non-empty, in entry order and
regardless of whether the entry has requirements; and every Requires-Dist
record of a group with non-empty normalized name carries the extra clause
naming that group inside its rendered marker. -/
theorem provides_extra_per_entry_and_marker (parse : String → Req)
    (gs : List (String × List String)) :
    (generate_requirements parse gs).filterMap
        (fun r => if r.1 == "Provides-Extra" then some r.2 else none)
      = gs.filterMap (fun g =>
          if safe_extra (splitColon g.1).1 = "" then none
          else some (safe_extra (splitColon g.1).1))
  ∧ ∀ g ∈ gs, safe_extra (splitColon g.1).1 ≠ "" →
      ∀ rec ∈ groupRecords parse g, rec.1 = "Requires-Dist" →
        (extraClause (safe_extra (splitColon g.1).1)).data <:+: rec.2.data := by
  constructor
  · induction gs with
    | nil => rfl
    | cons g gs ih =>
      rw [generate_requirements, List.flatMap_cons, List.filterMap_append]
      rw [generate_requirements] at ih
      rw [filterMap_pe_groupRecords parse g, ih, List.filterMap_cons]
      by_cases he : safe_extra (splitColon g.1).1 = ""
      · rw [if_pos he, if_pos he]
        simp
      · rw [if_neg he, if_neg he]
        simp
  · intro g hg hne rec hrec hkey
    simp only [groupRecords] at hrec
    rcases List.mem_append.1 hrec with hpe | hrd
    · rw [if_pos hne] at hpe
      have hre : rec = ("Provides-Extra", safe_extra (splitColon g.1).1) :=
        List.mem_singleton.1 hpe
      rw [hre] at hkey
      have hner : ¬(("Provides-Extra" : String) = "Requires-Dist") := by decide
      exact absurd hkey hner
    · rcases List.mem_map.1 hrd with ⟨d, hd, rfl⟩
      refine List.IsSuffix.isInfix ?_
      rw [if_pos hne]
      exact extraClause_suffix_render (parse d)
        (if (splitColon g.1).2 ≠ "" then ("(") ++ (splitColon g.1).2 ++ ") and " else (""))
        (safe_extra (splitColon g.1).1)

theorem provides_extra_per_entry_and_marker_witness :
    (generate_requirements parse0 [("test", ["pytest"])]).filterMap
        (fun r => if r.1 == "Provides-Extra" then some r.2 else none)
      = [(("test" : String), ["pytest"])].filterMap (fun g =>
          if safe_extra (splitColon g.1).1 = "" then none
          else some (safe_extra (splitColon g.1).1))
  ∧ (extraClause (safe_extra (splitColon (("test", ["pytest"]) :
        String × List String).1).1)).data
      <:+: (("Requires-Dist", renderReq (mergeMarker (parse0 ("pytest"))
            (("" : String) ++ extraClause ("test")))) : String × String).2.data := by
  constructor
  · exact (provides_extra_per_entry_and_marker parse0 [("test", ["pytest"])]).1
  · exact (provides_extra_per_entry_and_marker parse0 [("test", ["pytest"])]).2
      ("test", ["pytest"]) (by decide) (by decide)
      ("Requires-Dist", renderReq (mergeMarker (parse0 ("pytest"))
        (("" : String) ++ extraClause ("test")))) (by decide) rfl

/-! ### Theorems: condition combination (claim C5) -/

theorem splitColon_colon (b : String) : splitColon (":" ++ b) = ("", b) := by
  rw [splitColon]
  have hdata : (":" ++ b).data = ':' :: b.data := by
    rw [String.data_append]
    have hcolon : (":").data = [':'] := by decide
    rw [hcolon]
    rfl
  rw [hdata, splitColonAux, if_pos (by decide)]

theorem safe_extra_empty : safe_extra ("") = "" := by decide

/-- C5 counterexample: for the group name made of a colon followed by a
literal condition, the normalized extra is empty and the emitted marker is
the bare literal condition, not the parenthesized condition ANDed with an
extra clause as the claim states for every group name embedding a
condition. -/
theorem combined_condition_counterexample :
    generate_requirements parse0 [((":" ++ "python_version < 3.4"), ["six"])]
      = [("Requires-Dist", renderReq ⟨"six", some ("python_version < 3.4")⟩)]
  ∧ renderReq ⟨"six", some ("python_version < 3.4")⟩
      ≠ renderReq ⟨"six",
          some (("(" ++ "python_version < 3.4" ++ ") and ") ++ extraClause (""))⟩ :=
  ⟨by decide, by decide⟩

/-- C5 amended: for a group whose normalized extra name is non-empty, a
literal condition after the colon is parenthesized and ANDed in front of
the extra clause, and without a literal condition the combined condition is
the extra clause alone; a pre-existing requirement marker is parenthesized
and ANDed with the combined condition, and otherwise the marker becomes the
combined condition directly.  For a group whose normalized extra name is
empty, the combined condition is the bare literal condition. -/
theorem combined_condition_format (parse : String → Req) :
    (∀ (name cond : String) (deps : List String), ':' ∉ name.data →
        safe_extra name ≠ "" → cond ≠ "" →
        groupRecords parse (name ++ ":" ++ cond, deps)
          = ("Provides-Extra", safe_extra name)
              :: deps.map (fun d => ("Requires-Dist",
                  (parse d).base ++ ("; " ++ (match (parse d).marker with
                    | some m => "(" ++ m ++ ") and "
                        ++ (("(" ++ cond ++ ") and ") ++ extraClause (safe_extra name))
                    | none => ("(" ++ cond ++ ") and ") ++ extraClause (safe_extra name))))))
  ∧ (∀ (name : String) (deps : List String), ':' ∉ name.data →
        safe_extra name ≠ "" →
        groupRecords parse (name, deps)
          = ("Provides-Extra", safe_extra name)
              :: deps.map (fun d => ("Requires-Dist",
                  (parse d).base ++ ("; " ++ (match (parse d).marker with
                    | some m => "(" ++ m ++ ") and " ++ extraClause (safe_extra name)
                    | none => extraClause (safe_extra name))))))
  ∧ (∀ (cond : String) (deps : List String), cond ≠ "" →
        groupRecords parse (":" ++ cond, deps)
          = deps.map (fun d => ("Requires-Dist",
              (parse d).base ++ ("; " ++ (match (parse d).marker with
                | some m => "(" ++ m ++ ") and " ++ cond
                | none => cond))))) := by
  refine ⟨?_, ?_, ?_⟩
  · intro name cond deps hcolon hname hcond
    simp only [groupRecords, splitColon_append name cond hcolon]
    rw [if_pos hname, if_pos hname, if_pos hcond, List.singleton_append]
    congr 1
  · intro name deps hcolon hname
    simp only [groupRecords, splitColon_no_colon name hcolon]
    rw [if_pos hname, if_pos hname, if_neg (fun hc : ("" : String) ≠ "" => hc rfl),
      List.singleton_append]
    congr 1
  · intro cond deps hcond
    simp only [groupRecords, splitColon_colon cond, safe_extra_empty]
    rw [if_neg (fun hc : ("" : String) ≠ "" => hc rfl),
      if_neg (fun hc : ("" : String) ≠ "" => hc rfl), List.nil_append]
    apply List.map_congr_left
    intro d _
    rw [mergeMarker, if_pos hcond]
    cases hm : (parse d).marker with
    | some m => rfl
    | none => rfl

theorem combined_condition_format_witness :
    groupRecords parse0 ("test" ++ ":" ++ "python_version < 3.4", ["six"])
      = ("Provides-Extra", safe_extra ("test"))
          :: [("Requires-Dist",
              (parse0 ("six")).base ++ ("; " ++ (("(" ++ "python_version < 3.4" ++ ") and ")
                ++ extraClause (safe_extra ("test")))))] := by
  have h := (combined_condition_format parse0).1 ("test") "python_version < 3.4" ["six"]
    (by decide) (by decide) (by decide)
  rw [h]
  decide

/-! ### Theorems: wheel manifest (claim C2) -/

theorem splitNl_no_nl : ∀ (l : List Char), '\n' ∉ l → splitNl l = [l] := by
  intro l h
  induction l with
  | nil => rfl
  | cons c cs ih =>
    rw [splitNl]
    have hc : (c == '\n') = false := by
      have : c ≠ '\n' := fun hcc => h (hcc ▸ List.mem_cons_self c cs)
      simpa using this
    rw [if_neg (by simp [hc]), ih (fun hm => h (List.mem_cons_of_mem c hm))]

theorem splitNl_append_nl : ∀ (l r : List Char), '\n' ∉ l →
    splitNl (l ++ '\n' :: r) = l :: splitNl r := by
  intro l r h
  induction l with
  | nil => rw [List.nil_append, splitNl, if_pos (by decide)]
  | cons c cs ih =>
    rw [List.cons_append, splitNl]
    have hc : (c == '\n') = false := by
      have : c ≠ '\n' := fun hcc => h (hcc ▸ List.mem_cons_self c cs)
      simpa using this
    rw [if_neg (by simp [hc]), ih (fun hm => h (List.mem_cons_of_mem c hm))]

theorem splitNl_joinLines : ∀ (ls : List (List Char)), ls ≠ [] →
    (∀ l ∈ ls, '\n' ∉ l) → splitNl (joinLines ls) = ls := by
  intro ls
  induction ls with
  | nil => exact fun h _ => absurd rfl h
  | cons l ls ih =>
    intro _ hall
    cases ls with
    | nil =>
      rw [joinLines]
      exact splitNl_no_nl l (hall l (List.mem_cons_self _ _))
    | cons l' ls' =>
      rw [joinLines, splitNl_append_nl l _ (hall l (List.mem_cons_self _ _)),
        ih (List.cons_ne_nil l' ls') (fun x hx => hall x (List.mem_cons_of_mem l hx))]
      exact fun h => List.noConfusion h

theorem digitChar_ne_nl (d : Nat) : digitChar d ≠ '\n' := by
  unfold digitChar
  split <;> decide

theorem natCharsAux_ne_nl : ∀ (f n : Nat), '\n' ∉ natCharsAux f n := by
  intro f
  induction f with
  | zero =>
    intro n h
    exact absurd h (List.not_mem_nil _)
  | succ f ih =>
    intro n h
    rw [natCharsAux] at h
    by_cases hn : n < 10
    · rw [if_pos hn] at h
      exact digitChar_ne_nl n (List.mem_singleton.1 h).symm
    · rw [if_neg hn] at h
      rcases List.mem_append.1 h with h | h
      · exact ih (n / 10) h
      · exact digitChar_ne_nl (n % 10) (List.mem_singleton.1 h).symm

theorem b64Char_ne_nl (n : Nat) : b64Char n ≠ '\n' := by
  rw [b64Char, List.getD_eq_getD_get?]
  cases hg : b64Alphabet.get? n with
  | none => decide
  | some c =>
    have hc : c ∈ b64Alphabet := List.get?_mem hg
    have hall : ∀ x ∈ b64Alphabet, x ≠ '\n' := by decide
    simp only [Option.getD_some]
    exact hall c hc

theorem b64Encode_ne_nl_aux : ∀ (n : Nat) (bs : List Nat), bs.length ≤ n →
    '\n' ∉ b64Encode bs := by
  intro n
  induction n with
  | zero =>
    intro bs hb
    have hnil : bs = [] := List.length_eq_zero.1 (Nat.le_zero.1 hb)
    rw [hnil]
    exact List.not_mem_nil _
  | succ n ih =>
    intro bs hb
    rcases bs with - | ⟨a, - | ⟨b, - | ⟨c, rest⟩⟩⟩
    · exact List.not_mem_nil _
    · intro h
      simp only [b64Encode, List.mem_cons, List.not_mem_nil, or_false] at h
      rcases h with h | h | h | h
      · exact b64Char_ne_nl _ h.symm
      · exact b64Char_ne_nl _ h.symm
      · exact absurd h (by decide)
      · exact absurd h (by decide)
    · intro h
      simp only [b64Encode, List.mem_cons, List.not_mem_nil, or_false] at h
      rcases h with h | h | h | h
      · exact b64Char_ne_nl _ h.symm
      · exact b64Char_ne_nl _ h.symm
      · exact b64Char_ne_nl _ h.symm
      · exact absurd h (by decide)
    · intro h
      simp only [b64Encode, List.mem_cons] at h
      rcases h with h | h | h | h | h
      · exact b64Char_ne_nl _ h.symm
      · exact b64Char_ne_nl _ h.symm
      · exact b64Char_ne_nl _ h.symm
      · exact b64Char_ne_nl _ h.symm
      · have hrest : rest.length ≤ n := by
          simp only [List.length_cons] at hb
          omega
        exact ih rest hrest h

theorem b64Encode_ne_nl (bs : List Nat) : '\n' ∉ b64Encode bs :=
  b64Encode_ne_nl_aux bs.length bs (Nat.le_refl _)

theorem urlsafe_b64encode_ne_nl (data : List Nat) : '\n' ∉ urlsafe_b64encode data := by
  intro h
  rw [urlsafe_b64encode, List.mem_reverse] at h
  have h2 := (List.dropWhile_sublist (fun c : Char => c == '=')).subset h
  rw [List.mem_reverse] at h2
  exact b64Encode_ne_nl data h2

theorem escapeCommas_ne_nl {l : List Char} (h : '\n' ∉ l) : '\n' ∉ escapeCommas l := by
  intro hm
  rw [escapeCommas] at hm
  rcases List.mem_flatMap.1 hm with ⟨c, hc, hcm⟩
  by_cases hcc : (c == ',') = true
  · rw [if_pos hcc] at hcm
    have hnc : ('\n' : Char) = ',' := by
      simp only [List.mem_cons, List.not_mem_nil, or_false, or_self] at hcm
      exact hcm
    exact absurd hnc (by decide)
  · rw [if_neg hcc] at hcm
    have hceq : ('\n' : Char) = c := List.mem_singleton.1 hcm
    exact h (hceq ▸ hc)

theorem recordLine_ne_nl {path : String} (data : List Nat) (h : '\n' ∉ path.data) :
    '\n' ∉ recordLine path data := by
  intro hm
  rw [recordLine] at hm
  rcases List.mem_append.1 hm with hm | hm
  · rcases List.mem_append.1 hm with hm | hm
    · rcases List.mem_append.1 hm with hm | hm
      · rcases List.mem_append.1 hm with hm | hm
        · exact escapeCommas_ne_nl h hm
        · exact absurd (List.mem_singleton.1 hm) (by decide)
      · rcases List.mem_append.1 hm with hm | hm
        · exact absurd hm (by decide)
        · exact urlsafe_b64encode_ne_nl (sha256 data) hm
    · exact absurd (List.mem_singleton.1 hm) (by decide)
  · exact natCharsAux_ne_nl _ _ hm

/-- C2: the RECORD written by add_manifest splits at newlines into exactly
one record per pre-existing archive member followed by the final
self-record, in the archive's member enumeration order; each content
record is the member's comma-escaped path, the sha256-prefixed URL-safe
unpadded digest of its bytes, and its byte count, and the self-record is
the RECORD path with empty hash and size fields. -/
theorem add_manifest_record_complete (members : List Member) (recordPath : String)
    (hpaths : ∀ m ∈ members, '\n' ∉ m.path.data) (hrp : '\n' ∉ recordPath.data) :
    splitNl (add_manifest members recordPath).data
      = members.map (fun m => recordLine m.path m.data)
          ++ [recordPath.data ++ [',', ',']]
    ∧ (splitNl (add_manifest members recordPath).data).length
        = members.length + 1 := by
  have hall : ∀ l ∈ members.map (fun m => recordLine m.path m.data)
      ++ [recordPath.data ++ [',', ',']], '\n' ∉ l := by
    intro l hl
    rcases List.mem_append.1 hl with hl | hl
    · rcases List.mem_map.1 hl with ⟨m, hmem, rfl⟩
      exact recordLine_ne_nl m.data (hpaths m hmem)
    · have : l = recordPath.data ++ [',', ','] := List.mem_singleton.1 hl
      rw [this]
      intro hin
      rcases List.mem_append.1 hin with hin | hin
      · exact hrp hin
      · exact absurd hin (by decide)
  have hne : members.map (fun m => recordLine m.path m.data)
      ++ [recordPath.data ++ [',', ',']] ≠ [] := by simp
  have h1 : splitNl (add_manifest members recordPath).data
      = members.map (fun m => recordLine m.path m.data)
          ++ [recordPath.data ++ [',', ',']] :=
    splitNl_joinLines _ hne hall
  refine ⟨h1, ?_⟩
  rw [h1]
  simp

theorem add_manifest_record_complete_witness :
    splitNl (add_manifest [⟨"a,b", [104, 105]⟩] ("sample-0.1.dist-info/RECORD")).data
      = [recordLine ("a,b") [104, 105],
         ("sample-0.1.dist-info/RECORD").data ++ [',', ',']]
    ∧ (splitNl (add_manifest [⟨"a,b", [104, 105]⟩]
          ("sample-0.1.dist-info/RECORD")).data).length = 2 :=
  add_manifest_record_complete [⟨"a,b", [104, 105]⟩] ("sample-0.1.dist-info/RECORD")
    (by decide) (by decide)

/-! ### Theorems: tag resolver (claims C4, C6, C7) -/

theorem suffix_of_suffix_le {l₁ l₂ l₃ : List Char} (h₁ : l₁ <:+ l₃) (h₂ : l₂ <:+ l₃)
    (h : l₁.length ≤ l₂.length) : l₁ <:+ l₂ := by
  obtain ⟨a, ha⟩ := h₁
  obtain ⟨b, hb⟩ := h₂
  have hla := congrArg List.length ha
  have hlb := congrArg List.length hb
  rw [List.length_append] at hla hlb
  have hlen : b.length ≤ a.length := by omega
  have hab : a ++ l₁ = b ++ l₂ := ha.trans hb.symm
  have hdrop := congrArg (List.drop b.length) hab
  rw [List.drop_append_of_le_length hlen, List.drop_left] at hdrop
  exact ⟨a.drop b.length, hdrop⟩

theorem endswith_iff {s t : String} : endswith s t = true ↔ t.data <:+ s.data := by
  rw [endswith]
  exact List.isSuffixOf_iff_suffix

/-- C4: a purelib build resolves the tag py3-none-any, which ends with
none-any; an unset ROOT_IS_PURELIB defaults to whether WHEEL_TAG ends with
none-any while a preset value is kept; and a non-purelib build whose
platform string is a real platform (at least three characters, not ending
with any) never resolves a tag ending with none-any — together the
purelib flag holds exactly when the resolved tag ends with none-any. -/
theorem root_is_purelib_iff_tag_none_any :
    (∀ env : TagEnv, env.root_is_purelib = true →
        get_tag env = Except.ok ("py3-none-any")
          ∧ endswith ("py3-none-any") "none-any" = true)
  ∧ (∀ wheel_tag : String,
        (default_root_is_purelib none wheel_tag = endswith wheel_tag ("none-any"))
          ∧ ∀ b : Bool, default_root_is_purelib (some b) wheel_tag = b)
  ∧ (∀ (env : TagEnv) (tag : String), env.root_is_purelib = false →
        3 ≤ env.platform.length → endswith env.platform ("any") = false →
        get_tag env = Except.ok tag → endswith tag ("none-any") = false) := by
  refine ⟨?_, ?_, ?_⟩
  · intro env h
    rw [get_tag, if_pos h]
    exact ⟨rfl, by decide⟩
  · intro wheel_tag
    exact ⟨rfl, fun b => rfl⟩
  · intro env tag hpl hlen hany htag
    cases he : endswith tag ("none-any") with
    | false => rfl
    | true =>
      exfalso
      have hsuf : ("none-any" : String).data <:+ tag.data := endswith_iff.1 he
      rw [get_tag, if_neg (by simp [hpl])] at htag
      have hplat : env.platform.data <:+ tag.data := by
        cases hl : env.limited_api_target with
        | none =>
          rw [hl] at htag
          have htag' : Except.ok (env.interpreter_name ++ env.interpreter_version ++ "-"
              ++ strLower env.abi_tag ++ "-" ++ env.platform) = Except.ok tag := htag
          injection htag' with htag'
          rw [← htag']
          exact suffix_data_append _ env.platform
        | some target =>
          rw [hl] at htag
          rcases target with - | ⟨M, - | ⟨mi, - | ⟨x, xs⟩⟩⟩
          · exact Except.noConfusion (show Except.error ("target is not a 2-tuple")
              = Except.ok tag from htag)
          · exact Except.noConfusion (show Except.error ("target is not a 2-tuple")
              = Except.ok tag from htag)
          · have htag' : (if M ≠ 3 ∨ mi < 2 then
                  (Except.error ("cannot target abi below 3.2") : Except String String)
                else Except.ok (("cp" ++ String.join ([M, mi].map intStr)) ++ "-" ++ "abi3"
                  ++ "-" ++ env.platform)) = Except.ok tag := htag
            by_cases hc : M ≠ 3 ∨ mi < 2
            · rw [if_pos hc] at htag'
              exact Except.noConfusion htag'
            · rw [if_neg hc] at htag'
              injection htag' with htag'
              rw [← htag']
              exact suffix_data_append _ env.platform
          · exact Except.noConfusion (show Except.error ("target is not a 2-tuple")
              = Except.ok tag from htag)
      have hany8 : ("any" : String).data <:+ tag.data :=
        List.IsSuffix.trans ⟨("none-" : String).data, by decide⟩ hsuf
      have h3 : ("any" : String).data.length ≤ env.platform.data.length := by
        have h3' : ("any" : String).data.length = 3 := by decide
        rw [h3']
        exact hlen
      have hps := suffix_of_suffix_le hany8 hplat h3
      exact absurd (endswith_iff.2 hps) (by simp [hany])

theorem root_is_purelib_iff_tag_none_any_witness :
    get_tag ⟨true, none, "cp", "312", "cp312", "linux_x86_64"⟩
        = Except.ok ("py3-none-any")
  ∧ default_root_is_purelib none ("py3-none-any") = endswith ("py3-none-any") "none-any"
  ∧ endswith ("cp38-abi3-linux_x86_64") "none-any" = false :=
  ⟨((root_is_purelib_iff_tag_none_any).1
      ⟨true, none, "cp", "312", "cp312", "linux_x86_64"⟩ rfl).1,
   ((root_is_purelib_iff_tag_none_any).2.1 ("py3-none-any")).1,
   (root_is_purelib_iff_tag_none_any).2.2
      ⟨false, some [3, 8], "cp", "312", "cp312", "linux_x86_64"⟩
      "cp38-abi3-linux_x86_64" rfl (by decide) (by decide) rfl⟩

/-- C6: for a non-purelib build with a requested limited-ABI target, the
tag computation fails exactly when the target is not a two-element pair, or
its major is not 3, or its minor is below 2; every valid target succeeds. -/
theorem limited_api_target_errors (target : List Int) (iN iV aT plat : String) :
    (∃ e, get_tag ⟨false, some target, iN, iV, aT, plat⟩ = Except.error e)
      ↔ (target.length ≠ 2 ∨ ∃ M m, target = [M, m] ∧ (M ≠ 3 ∨ m < 2)) := by
  rcases target with - | ⟨M, - | ⟨mi, - | ⟨x, xs⟩⟩⟩
  · rw [show get_tag ⟨false, some ([] : List Int), iN, iV, aT, plat⟩
        = Except.error ("target is not a 2-tuple") from rfl]
    constructor
    · intro _
      exact Or.inl (by simp)
    · intro _
      exact ⟨"target is not a 2-tuple", rfl⟩
  · rw [show get_tag ⟨false, some [M], iN, iV, aT, plat⟩
        = Except.error ("target is not a 2-tuple") from rfl]
    constructor
    · intro _
      exact Or.inl (by simp)
    · intro _
      exact ⟨"target is not a 2-tuple", rfl⟩
  · rw [show get_tag ⟨false, some [M, mi], iN, iV, aT, plat⟩
        = (if M ≠ 3 ∨ mi < 2 then
            (Except.error ("cannot target abi below 3.2") : Except String String)
          else Except.ok (("cp" ++ String.join ([M, mi].map intStr)) ++ "-" ++ "abi3"
            ++ "-" ++ plat)) from rfl]
    by_cases hc : M ≠ 3 ∨ mi < 2
    · rw [if_pos hc]
      constructor
      · intro _
        exact Or.inr ⟨M, mi, rfl, hc⟩
      · intro _
        exact ⟨"cannot target abi below 3.2", rfl⟩
    · rw [if_neg hc]
      constructor
      · rintro ⟨e, he⟩
        exact Except.noConfusion he
      · intro h
        rcases h with h | ⟨M', m', heq, hc'⟩
        · exact absurd rfl h
        · exfalso
          rcases heq with ⟨rfl, rfl⟩ | h
          exact hc hc'
  · rw [show get_tag ⟨false, some (M :: mi :: x :: xs), iN, iV, aT, plat⟩
        = Except.error ("target is not a 2-tuple") from rfl]
    constructor
    · intro _
      refine Or.inl ?_
      simp only [List.length_cons]
      omega
    · intro _
      exact ⟨"target is not a 2-tuple", rfl⟩

theorem limited_api_target_errors_witness :
    ∃ e, get_tag ⟨false, some [2, 7], "cp", "312", "cp312", "linux_x86_64"⟩
        = Except.error e :=
  (limited_api_target_errors [2, 7] "cp" "312" "cp312" "linux_x86_64").2
    (Or.inr ⟨2, 7, rfl, Or.inl (by decide)⟩)

/-- C7: a non-purelib build with limited-ABI target (3, 8) on platform
linux_x86_64 resolves the tag cp38-abi3-linux_x86_64, and renaming the
wheel for the name-version sample-0.1 yields the filename
sample-0.1-cp38-abi3-linux_x86_64.whl. -/
theorem abi3_tag_and_filename_example :
    get_tag ⟨false, some [3, 8], "cp", "312", "cp312", "linux_x86_64"⟩
      = Except.ok ("cp38-abi3-linux_x86_64")
  ∧ wheel_file_name ("sample-0.1") "cp38-abi3-linux_x86_64"
      = "sample-0.1-cp38-abi3-linux_x86_64.whl" :=
  ⟨rfl, by decide⟩

end Enscons
